import Mathlib

/-
Verification of the email archiver (`imap_email_archiver.py`) and the query
tool (`query_email_archive.py`).

The Python code is shallowly embedded as executable Lean functions:

* Python values that flow through the archiver's `archive_cache` set are
  modelled by `PyVal` (`None`, `str`, `bytes`), with Python's structural,
  cross-type-false equality given by decidable equality on `PyVal`.
* A fetched-and-parsed message (`email.message_from_bytes(raw)`) is modelled
  by `PyMessage`; a row of the `emails` table by `EmailRow`.
* `INSERT OR IGNORE` on the `message_id TEXT UNIQUE` column is
  `insertIfAbsent`: a non-null duplicate leaves the store unchanged and
  reports `false`; a NULL `message_id` never conflicts (SQLite UNIQUE allows
  any number of NULLs).
* The batch loop (lines 94-151 of the archiver) is `runBatch`: the module
  start-up computes `archive_cache` (line 54-55) and `pending_ids`
  (line 80), then iterates over `pending_ids[:BATCH_SIZE]`.  An uncaught
  Python exception (a `ConnectionError` escaping `mail.fetch`, or a decode
  error) terminates the script; since every insert is followed by
  `conn.commit()`, the store at that moment is exactly what survives, so the
  run is modelled as `Except (List EmailRow) (List EmailRow × Nat)`, the
  error value carrying the committed store and the success value carrying
  the store plus the final `processed` counter.  The periodic
  `processed % 200` reconnect and the `time.sleep` pacing have no effect on
  the store or the counters and are not modelled.
* `extract_domains` (lines 86-89) is embedded at the granularity of the
  Python code: `re.findall(r'https?://[\w\.-]+', text)` is the
  left-to-right, non-overlapping scanner `findUrls` (greedy `s?`, then a
  maximal non-empty run of word/dot/hyphen characters), and
  `u.split("//")[1].split("/")[0]` is `hostOfUrl` built from the faithful
  `str.split` models `splitDD` / `splitS`.  `\w` is modelled on the ASCII
  range (alphanumeric or underscore).  The Python function returns
  `",".join(set(domains))` or `None`; since the iteration order of a Python
  `str` set is unspecified, the result is modelled at the set level, as
  `Option (Finset String)`.
* `query_emails` of the query tool is the standard relational reading of
  the generated SQL: `WHERE` is `List.filter`, `ORDER BY date DESC` is
  `List.insertionSort` with the non-strict "date greater or equal"
  relation (SQLite sorts NULLs first ascending, hence last descending, and
  compares TEXT bytewise, which on strings coincides with Lean's order),
  and `LIMIT ? OFFSET ?` is `drop offset` then `take limit`.  `LIKE
  '%x%'` for a wildcard-free `x` is case-insensitive (ASCII) substring
  containment, SQLite's default behaviour; a NULL column never matches.
  Python truthiness of the filter arguments (`if sender:`) is
  `activeFilter`.
-/

/-- A Python value as stored in `archive_cache` or compared against it:
`None`, a `str`, or a `bytes` object (IMAP message-sequence tokens from
`data[0].split()`).  Structural decidable equality models Python `==`,
which is `False` across these types. -/
inductive PyVal where
  | vnone : PyVal
  | vstr (s : String) : PyVal
  | vbytes (b : List Nat) : PyVal
deriving DecidableEq

/-- The contribution of a Python `Optional[str]` to `archive_cache`
(`SELECT message_id FROM emails` yields `None` for NULL). -/
def pyOfOpt : Option String → PyVal
  | none => PyVal.vnone
  | some s => PyVal.vstr s

/-- The decoded value of a `Subject` header as `decode_header(...)[0]`
sees it: either already a `str`, or raw bytes with an optional charset
name (from an encoded word). -/
inductive SubjHdr where
  | strv (s : String) : SubjHdr
  | encv (b : List Nat) (charset : Option String) : SubjHdr
deriving DecidableEq

/-- One MIME part as visited by `msg.walk()`.  An `html` part carries the
decoded markup; parts of any other content type contribute nothing
(the loop only handles `text/plain` and `text/html`). -/
inductive MimePart where
  | plain (t : String) : MimePart
  | html (t : String) : MimePart
  | other : MimePart
deriving DecidableEq

/-- A parsed message object, the result of `email.message_from_bytes`.
Header accessors (`msg.get`) return `None` when the header is absent.
`payload` is the decoded single payload used when the message is not
multipart (byte-to-text decoding with `errors="ignore"` is abstracted to
the resulting string). -/
structure PyMessage where
  message_id : Option String
  sender : Option String
  recipient : Option String
  date : Option String
  subject : Option SubjHdr
  multipart : Bool
  parts : List MimePart
  payload : String
deriving DecidableEq

/-- Whether a character matches `[\w\.-]` of the Python pattern, on the
ASCII range: alphanumeric, underscore, dot or hyphen. -/
def isHostChar (c : Char) : Bool :=
  c.isAlphanum || c == '_' || c == '.' || c == '-'

/-- The maximal leading run of host characters and the remainder: the
greedy `[\w\.-]+` step of the regex. -/
def takeHost : List Char → List Char × List Char
  | [] => ([], [])
  | c :: cs =>
    if isHostChar c then
      ((takeHost cs).1.cons c, (takeHost cs).2)
    else
      ([], c :: cs)

/-- Matching `https?://` at the head of the input (the regex engine first
tries the greedy optional `s`): returns whether the scheme was `https` and
the remainder. -/
def afterScheme : List Char → Option (Bool × List Char)
  | 'h' :: 't' :: 't' :: 'p' :: 's' :: ':' :: '/' :: '/' :: rest => some (true, rest)
  | 'h' :: 't' :: 't' :: 'p' :: ':' :: '/' :: '/' :: rest => some (false, rest)
  | _ => none

/-- The characters of the matched scheme. -/
def schemeChars (https : Bool) : List Char :=
  if https then ['h', 't', 't', 'p', 's', ':', '/', '/']
  else ['h', 't', 't', 'p', ':', '/', '/']

/-- `re.findall(r'https?://[\w\.-]+', text)`: scan left to right; at a
position where the scheme matches and at least one host character follows,
emit the whole match and resume after it (non-overlapping matches);
otherwise advance one character.  The recursion is driven by a fuel
parameter so that it is structural; every step consumes at least one
character, so the fuel `length + 1` supplied by `findUrls` is never
exhausted. -/
def findUrlsF : Nat → List Char → List (List Char)
  | 0, _ => []
  | _ + 1, [] => []
  | fuel + 1, c :: rest =>
    match afterScheme (c :: rest) with
    | some pr =>
      if (takeHost pr.2).1.isEmpty then findUrlsF fuel rest
      else (schemeChars pr.1 ++ (takeHost pr.2).1) :: findUrlsF fuel (takeHost pr.2).2
    | none => findUrlsF fuel rest

/-- See `findUrlsF`. -/
def findUrls (l : List Char) : List (List Char) := findUrlsF (l.length + 1) l

/-- The same scan emitting only the host runs (used to state what
`extract_domains` computes after the `split`-based host recovery). -/
def findHostsF : Nat → List Char → List (List Char)
  | 0, _ => []
  | _ + 1, [] => []
  | fuel + 1, c :: rest =>
    match afterScheme (c :: rest) with
    | some pr =>
      if (takeHost pr.2).1.isEmpty then findHostsF fuel rest
      else (takeHost pr.2).1 :: findHostsF fuel (takeHost pr.2).2
    | none => findHostsF fuel rest

/-- See `findHostsF`. -/
def findHosts (l : List Char) : List (List Char) := findHostsF (l.length + 1) l

/-- Python `u.split("//")`, on character lists: split on every
non-overlapping occurrence of `//`, scanning left to right. -/
def splitDD : List Char → List (List Char)
  | [] => [[]]
  | [c] => [[c]]
  | c :: d :: rest =>
    if c = '/' ∧ d = '/' then [] :: splitDD rest
    else
      match splitDD (d :: rest) with
      | s :: ss => (c :: s) :: ss
      | [] => [[c]]

/-- Python `h.split("/")`, on character lists. -/
def splitS : List Char → List (List Char)
  | [] => [[]]
  | c :: rest =>
    if c = '/' then [] :: splitS rest
    else
      match splitS rest with
      | s :: ss => (c :: s) :: ss
      | [] => [[c]]

/-- `u.split("//")[1].split("/")[0]`: the host component of one matched
URL.  Indexing is total here because every match produced by `findUrls`
has a scheme and a non-empty host. -/
def hostOfUrl (u : List Char) : List Char :=
  ((splitS ((splitDD u).getD 1 [])).getD 0 [])

/-- `extract_domains` (archiver lines 86-89): find all URL matches, take
each one's host, deduplicate; `None` when no URL occurs.  The Python
return value `",".join(set(domains))` is modelled as the set itself. -/
def extract_domains (text : String) : Option (Finset String) :=
  let domains := (findUrls text.data).map (fun u => String.mk (hostOfUrl u))
  if domains.isEmpty then none else some domains.toFinset

/-- A row of the `emails` table (the surrogate `id` column plays no role
in any property and is omitted).  `domains_found` is the stored domain
set, or NULL (see `extract_domains` on the comma-join abstraction). -/
structure EmailRow where
  message_id : Option String
  sender : Option String
  recipient : Option String
  subject : Option String
  date : Option String
  body : Option String
  domains_found : Option (Finset String)
deriving DecidableEq

/-- Errors that abort the archiver: `TypeError` (from
`decode_header(None)` when the `Subject` header is absent), `LookupError`
(from `bytes.decode` with an unknown charset name), and
`ConnectionError` from the transport. -/
inductive PyErr where
  | typeError : PyErr
  | lookupError : PyErr
  | connError : PyErr
deriving DecidableEq

/-- The content fields produced by a successful decode (lines 111-133). -/
structure DecodedMsg where
  subject : String
  sender : Option String
  recipient : Option String
  date : Option String
  body : String
deriving DecidableEq

/-- Codec names accepted by `bytes.decode`; an unknown name raises
`LookupError` even with `errors="ignore"`.  (A representative registry;
only membership matters to the control flow.) -/
def knownEncoding (s : String) : Bool :=
  s == "utf-8" || s == "utf8" || s == "ascii" || s == "us-ascii" ||
  s == "latin-1" || s == "iso-8859-1"

/-- Byte-to-text decoding with `errors="ignore"`, abstracted to the ASCII
range: non-ASCII bytes are dropped. -/
def asciiIgnore (b : List Nat) : String :=
  String.mk ((b.filter (fun n => n < 128)).map (fun n => Char.ofNat n))

/-- Lines 112-115: `raw_subject = decode_header(msg.get("Subject"))[0]`,
then decode bytes with the announced charset (falling back to utf-8),
`errors="ignore"`.  A `str` chunk is used as is; a bytes chunk with an
unknown charset raises `LookupError`. -/
def decodeSubject : SubjHdr → Except PyErr String
  | SubjHdr.strv s => Except.ok s
  | SubjHdr.encv b cs =>
    if knownEncoding (cs.getD "utf-8") then Except.ok (asciiIgnore b)
    else Except.error PyErr.lookupError

/-- BeautifulSoup's `get_text` on an HTML part, modelled as dropping every
`<...>` tag region and keeping the rest. -/
def stripTagsAux : Bool → List Char → List Char
  | _, [] => []
  | true, c :: cs => if c == '>' then stripTagsAux false cs else stripTagsAux true cs
  | false, c :: cs => if c == '<' then stripTagsAux true cs else c :: stripTagsAux false cs

/-- See `stripTagsAux`. -/
def stripTags (s : String) : String :=
  String.mk (stripTagsAux false s.data)

/-- The text a part contributes to `body` in the multipart walk
(lines 124-131): `text/plain` parts verbatim, `text/html` parts with tags
stripped, all other content types nothing. -/
def partText : MimePart → String
  | MimePart.plain t => t
  | MimePart.html t => stripTags t
  | MimePart.other => ""

/-- Body extraction (lines 122-133): concatenate the contributions of all
parts in traversal order when multipart, otherwise the single decoded
payload. -/
def bodyOf (m : PyMessage) : String :=
  if m.multipart then (m.parts.map partText).foldl (fun a b => a ++ b) ""
  else m.payload

/-- The decode step after the cache check (lines 111-133): the subject is
decoded first — `decode_header(None)` raises `TypeError` when the
`Subject` header is absent — then the remaining fields are read and the
body is extracted. -/
def decodeFields (m : PyMessage) : Except PyErr DecodedMsg :=
  match m.subject with
  | none => Except.error PyErr.typeError
  | some sh =>
    (decodeSubject sh).map
      (fun subj => DecodedMsg.mk subj m.sender m.recipient m.date (bodyOf m))

/-- The row an insert writes for a decoded message (lines 137-141): the
column tuple `(message_id, sender, recipient, subject, date, body,
domains_found)` with `domains = extract_domains(body)`. -/
def mkRow (mid : Option String) (d : DecodedMsg) : EmailRow :=
  EmailRow.mk mid d.sender d.recipient (some d.subject) d.date (some d.body)
    (extract_domains d.body)

/-- `INSERT OR IGNORE` against the `message_id TEXT UNIQUE` constraint:
a row whose non-null `message_id` already occurs is silently dropped
(returning `false`); any other row — including every row with a NULL
`message_id`, since SQLite's UNIQUE allows repeated NULLs — is appended. -/
def insertIfAbsent (store : List EmailRow) (r : EmailRow) : List EmailRow × Bool :=
  match r.message_id with
  | some s =>
    if store.any (fun q => q.message_id == some s) then (store, false)
    else (store ++ [r], true)
  | none => (store ++ [r], true)

/-- Lines 54-55: `archive_cache = set(row[0] for row in ...)` — the
message_id column of every row, as Python values (NULL becomes `None`). -/
def archiveCache (store : List EmailRow) : List PyVal :=
  store.map (fun r => pyOfOpt r.message_id)

/-- Line 80: `pending_ids = [mid for mid in all_ids if mid not in
archive_cache]` — `all_ids` are the `bytes` tokens of
`mail.search(...)[1][0].split()`, tested for membership in the cache with
Python equality. -/
def pendingIds (cache : List PyVal) (all_ids : List (List Nat)) : List (List Nat) :=
  all_ids.filter (fun mid => !(cache.any (fun v => v == PyVal.vbytes mid)))

/-- The batch loop body over the pending slice (lines 95-146).  `cache` is
the start-of-run `archive_cache`, never updated during the run.  For each
reference: fetch (an escaping `ConnectionError` aborts the script with the
committed store), read `Message-ID` and skip when it is in the cache,
decode (an escaping decode error likewise aborts), insert-or-ignore,
increment `processed`. -/
def runBatchAux (f : List Nat → Except PyErr PyMessage) (cache : List PyVal) :
    List (List Nat) → List EmailRow → Nat → Except (List EmailRow) (List EmailRow × Nat)
  | [], store, processed => Except.ok (store, processed)
  | ref :: rest, store, processed =>
    match f ref with
    | Except.error _ => Except.error store
    | Except.ok m =>
      if cache.any (fun v => v == pyOfOpt m.message_id) then
        runBatchAux f cache rest store processed
      else
        match decodeFields m with
        | Except.error _ => Except.error store
        | Except.ok d =>
          runBatchAux f cache rest (insertIfAbsent store (mkRow m.message_id d)).1
            (processed + 1)

/-- One invocation of the archiver against store `store` and the remote
reference list `all_ids`, with batch size `batchSize`: build the cache,
compute `pending_ids`, and process `pending_ids[:batchSize]`. -/
def runBatch (batchSize : Nat) (f : List Nat → Except PyErr PyMessage)
    (all_ids : List (List Nat)) (store : List EmailRow) :
    Except (List EmailRow) (List EmailRow × Nat) :=
  runBatchAux f (archiveCache store) ((pendingIds (archiveCache store) all_ids).take batchSize)
    store 0

/-- The store left behind by a run, whether it finished its batch or was
aborted by an escaping exception (every insert is committed at once, so
this is exactly what is durable). -/
def resultStore : Except (List EmailRow) (List EmailRow × Nat) → List EmailRow
  | Except.error s => s
  | Except.ok p => p.1

/-- The dedup invariant of the `emails` table: no two rows share a
non-null `message_id`. -/
def NoDupIds (store : List EmailRow) : Prop :=
  List.Pairwise (fun a b => a.message_id = none ∨ a.message_id ≠ b.message_id) store

/-- The claim-side reading of the URL pattern for `extract_domains`: a
substring match consists of the scheme, then a (necessarily maximal)
non-empty run of host characters, and the character after the run — the
"terminator" — must be a slash, a whitespace character, or the end of the
text. -/
def claimTerminator : List Char → Bool
  | [] => true
  | c :: _ => c == '/' || c.isWhitespace

/-- A claim-side match at offset `i` of the text: scheme, non-empty host
run, admissible terminator; yields the host component. -/
def claimHostAt (s : List Char) (i : Nat) : Option (List Char) :=
  match afterScheme (s.drop i) with
  | some pr =>
    if (takeHost pr.2).1.isEmpty then none
    else if claimTerminator (takeHost pr.2).2 then some (takeHost pr.2).1
    else none
  | none => none

/-- The claim-side specification of `extract_domains`: the deduplicated
set of host components of all claim-side matches anywhere in the text,
absent when there is none. -/
def claimedDomains (text : String) : Option (Finset String) :=
  let hs := ((List.range text.data.length).filterMap (claimHostAt text.data)).map
    (fun l => String.mk l)
  if hs.isEmpty then none else some hs.toFinset

/-- The host-level description of what `extract_domains` actually
computes: the deduplicated set of hosts emitted by the left-to-right,
non-overlapping scan `findHosts`, absent when there is none. -/
def scannedDomains (text : String) : Option (Finset String) :=
  let hs := (findHosts text.data).map (fun l => String.mk l)
  if hs.isEmpty then none else some hs.toFinset

/-- Python truthiness of a query-filter argument: a SQL condition is added
only for an argument that is present and non-empty (`if sender:` etc.). -/
def activeFilter : Option String → Option String
  | none => none
  | some s => if s = "" then none else some s

/-- SQLite's default ASCII case folding used by `LIKE`. -/
def lowerA (c : Char) : Char :=
  if 'A' ≤ c ∧ c ≤ 'Z' then Char.ofNat (c.toNat + 32) else c

/-- Whether `pat` occurs at the head of `l`. -/
def headMatch : List Char → List Char → Bool
  | [], _ => true
  | _ :: _, [] => false
  | a :: as, b :: bs => a == b && headMatch as bs

/-- Whether `pat` occurs as a contiguous segment of `l` (Python `in`). -/
def segIn (pat : List Char) : List Char → Bool
  | [] => headMatch pat []
  | c :: rest => headMatch pat (c :: rest) || segIn pat rest

/-- `column LIKE '%' || needle || '%'` for a needle without wildcard
characters: case-insensitive (ASCII) substring containment; a NULL column
yields NULL, which the WHERE clause treats as no match. -/
def likeSub (needle : String) (hay : Option String) : Bool :=
  match hay with
  | none => false
  | some h => segIn (needle.data.map lowerA) (h.data.map lowerA)

/-- Lexicographic order on character lists: SQLite's BINARY collation on
TEXT values (bytewise `memcmp`, which on UTF-8 agrees with comparing the
code points in order). -/
def charsLe : List Char → List Char → Bool
  | [], _ => true
  | _ :: _, [] => false
  | a :: as, b :: bs => if a = b then charsLe as bs else decide (a < b)

/-- `date >= ?` with TEXT (bytewise) comparison; NULL never passes. -/
def geFrom (bound : String) (x : Option String) : Bool :=
  match x with
  | none => false
  | some v => charsLe bound.data v.data

/-- `date <= ?` with TEXT comparison; NULL never passes. -/
def leTo (bound : String) (x : Option String) : Bool :=
  match x with
  | none => false
  | some v => charsLe v.data bound.data

/-- `domains_found LIKE '%' || d || '%'`.  The stored column is the
comma-join of the domain set; matching is modelled as a case-insensitive
substring hit inside some member of the set (matches spanning a comma are
not modelled; no verified property activates this filter). -/
def domainLike (needle : String) (ds : Option (Finset String)) : Bool :=
  match ds with
  | none => false
  | some t => decide (∃ d ∈ t, segIn (needle.data.map lowerA) (d.data.map lowerA) = true)

/-- The filter arguments of `query_emails` (argparse supplies `None` for
an omitted option; `limit` defaults to 50 and `offset` to 0). -/
structure QueryArgs where
  sender : Option String
  recipient : Option String
  subject : Option String
  date_from : Option String
  date_to : Option String
  domain : Option String
  search_body : Option String
  limit : Nat
  offset : Nat

/-- The WHERE clause assembled by `query_emails` (query tool lines
100-129): one conjunct per active filter argument. -/
def rowPred (a : QueryArgs) (r : EmailRow) : Bool :=
  (match activeFilter a.sender with
   | none => true
   | some s => likeSub s r.sender) &&
  (match activeFilter a.recipient with
   | none => true
   | some s => likeSub s r.recipient) &&
  (match activeFilter a.subject with
   | none => true
   | some s => likeSub s r.subject) &&
  (match activeFilter a.date_from with
   | none => true
   | some s => geFrom s r.date) &&
  (match activeFilter a.date_to with
   | none => true
   | some s => leTo s r.date) &&
  (match activeFilter a.domain with
   | none => true
   | some s => domainLike s r.domains_found) &&
  (match activeFilter a.search_body with
   | none => true
   | some s => likeSub s r.body)

/-- `ORDER BY date DESC`: `a` may precede `b` when `a.date ≥ b.date`,
with NULL below every value (SQLite places NULLs last in a descending
sort) and TEXT compared bytewise. -/
def dateDesc (a b : EmailRow) : Prop :=
  (match a.date, b.date with
   | _, none => true
   | none, some _ => false
   | some x, some y => charsLe y.data x.data) = true

instance : DecidableRel dateDesc := fun a b => by
  unfold dateDesc
  infer_instance

/-- `dateDesc` is total: `charsLe` is a linear preorder on character
lists (lexicographic over the linear order on `Char`). -/
instance : IsTotal EmailRow dateDesc := by
  constructor
  intro a b
  have htot : ∀ x y : List Char, charsLe x y = true ∨ charsLe y x = true := by
    intro x
    induction x with
    | nil => intro y; exact Or.inl rfl
    | cons p ps ih =>
      intro y
      cases y with
      | nil => exact Or.inr rfl
      | cons q qs =>
        have hcons : ∀ (u v : Char) (us vs : List Char), charsLe (u :: us) (v :: vs) =
            (if u = v then charsLe us vs else decide (u < v)) := fun _ _ _ _ => rfl
        by_cases hpq : p = q
        · subst hpq
          rcases ih qs with h | h
          · exact Or.inl (by rw [hcons, if_pos rfl]; exact h)
          · exact Or.inr (by rw [hcons, if_pos rfl]; exact h)
        · rcases lt_or_gt_of_ne hpq with h | h
          · exact Or.inl (by rw [hcons, if_neg hpq]; exact decide_eq_true h)
          · exact Or.inr (by
              rw [hcons, if_neg (fun hq2 => hpq hq2.symm)]
              exact decide_eq_true h)
  unfold dateDesc
  cases a.date <;> cases b.date <;> simp
  exact htot _ _

/-- `dateDesc` is transitive. -/
instance : IsTrans EmailRow dateDesc := by
  constructor
  intro a b c hab hbc
  have hcons : ∀ (u v : Char) (us vs : List Char), charsLe (u :: us) (v :: vs) =
      (if u = v then charsLe us vs else decide (u < v)) := fun _ _ _ _ => rfl
  have htrans : ∀ x y z : List Char, charsLe x y = true → charsLe y z = true →
      charsLe x z = true := by
    intro x
    induction x with
    | nil => intro y z _ _; rfl
    | cons p ps ih =>
      intro y z hxy hyz
      cases y with
      | nil => simp [charsLe] at hxy
      | cons q qs =>
        cases z with
        | nil => simp [charsLe] at hyz
        | cons r0 rs =>
          rw [hcons] at hxy hyz ⊢
          by_cases hpq : p = q <;> by_cases hqr : q = r0
          · subst hpq; subst hqr
            rw [if_pos rfl] at hxy hyz ⊢
            exact ih qs rs hxy hyz
          · subst hpq
            rw [if_pos rfl] at hxy
            rw [if_neg hqr] at hyz ⊢
            exact hyz
          · subst hqr
            rw [if_neg hpq] at hxy ⊢
            exact hxy
          · rw [if_neg hpq] at hxy
            rw [if_neg hqr] at hyz
            have h1 : p < q := of_decide_eq_true hxy
            have h2 : q < r0 := of_decide_eq_true hyz
            have h3 : p < r0 := lt_trans h1 h2
            rw [if_neg (ne_of_lt h3)]
            exact decide_eq_true h3
  unfold dateDesc at *
  cases ha : a.date <;> cases hb : b.date <;> cases hc : c.date <;>
    rw [ha, hb] at hab <;> rw [hb, hc] at hbc <;> simp_all
  exact htrans _ _ _ hbc hab

/-- `query_emails` (query tool lines 83-135): filter, sort by date
descending, then apply `OFFSET` and `LIMIT`. -/
def query_emails (db : List EmailRow) (a : QueryArgs) : List EmailRow :=
  (((db.filter (rowPred a)).insertionSort dateDesc).drop a.offset).take a.limit

/-- The query of the C9 property: `sender="alice"`, `date_from="2024-01-01"`,
every other filter absent. -/
def aliceArgs (lim off : Nat) : QueryArgs :=
  QueryArgs.mk (some "alice") none none (some "2024-01-01") none none none lim off

/-- A query with no active filter. -/
def noFilterArgs (lim off : Nat) : QueryArgs :=
  QueryArgs.mk none none none none none none none lim off

/-- A store row whose sender is upper-case `ALICE`. -/
def rowALICE : EmailRow :=
  EmailRow.mk (some "x1") (some "ALICE@example.com") none none (some "2024-06-01") none none

/-- Concrete messages `m1`, `m2`, `m3` behind the sequence tokens
`b"1"`, `b"2"`, `b"3"`. -/
def msgA : PyMessage :=
  PyMessage.mk (some "m1") (some "a@x.com") (some "b@x.com") (some "2024-01-01")
    (some (SubjHdr.strv "s one")) false [] "hello one"

/-- See `msgA`. -/
def msgB : PyMessage :=
  PyMessage.mk (some "m2") (some "a@x.com") (some "b@x.com") (some "2024-01-02")
    (some (SubjHdr.strv "s two")) false [] "hello two"

/-- See `msgA`. -/
def msgC : PyMessage :=
  PyMessage.mk (some "m3") (some "a@x.com") (some "b@x.com") (some "2024-01-03")
    (some (SubjHdr.strv "s three")) false [] "hello three"

/-- A remote mailbox with three messages; any other token fails. -/
def fetch3 : List Nat → Except PyErr PyMessage := fun r =>
  if r = [49] then Except.ok msgA
  else if r = [50] then Except.ok msgB
  else if r = [51] then Except.ok msgC
  else Except.error PyErr.connError

/-- The rows the archiver writes for `msgA`, `msgB`. -/
def rowA : EmailRow :=
  mkRow (some "m1")
    (DecodedMsg.mk "s one" (some "a@x.com") (some "b@x.com") (some "2024-01-01") "hello one")

/-- See `rowA`. -/
def rowB : EmailRow :=
  mkRow (some "m2")
    (DecodedMsg.mk "s two" (some "a@x.com") (some "b@x.com") (some "2024-01-02") "hello two")

/-- A message with no `Message-ID` header (and an otherwise decodable
subject and body). -/
def msgNoId : PyMessage :=
  PyMessage.mk none (some "a@x.com") none (some "2024-02-01")
    (some (SubjHdr.strv "no id")) false [] "plain"

/-- The row the archiver writes for `msgNoId`: `message_id` NULL. -/
def rowNoId : EmailRow :=
  mkRow none (DecodedMsg.mk "no id" (some "a@x.com") none (some "2024-02-01") "plain")

/-- A mailbox holding only `msgNoId` behind token `b"1"`. -/
def fetchNoId : List Nat → Except PyErr PyMessage := fun r =>
  if r = [49] then Except.ok msgNoId else Except.error PyErr.connError

/-- A message with no `Subject` header. -/
def msgNoSubject : PyMessage :=
  PyMessage.mk (some "ns") (some "a@x.com") none (some "2024-03-01") none false [] "plain"

/-- A mailbox holding only `msgNoSubject` behind token `b"1"`. -/
def fetchNoSubject : List Nat → Except PyErr PyMessage := fun r =>
  if r = [49] then Except.ok msgNoSubject else Except.error PyErr.connError

/-- Two distinct remote references (`b"1"`, `b"2"`) that resolve to
messages carrying the same `Message-ID` `"m"`. -/
def msgDupA : PyMessage :=
  PyMessage.mk (some "m") (some "a@x.com") none (some "2024-04-01")
    (some (SubjHdr.strv "d one")) false [] "first copy"

/-- See `msgDupA`. -/
def msgDupB : PyMessage :=
  PyMessage.mk (some "m") (some "a@x.com") none (some "2024-04-02")
    (some (SubjHdr.strv "d two")) false [] "second copy"

/-- The mailbox for the duplicate-id scenario. -/
def fetchDup : List Nat → Except PyErr PyMessage := fun r =>
  if r = [49] then Except.ok msgDupA
  else if r = [50] then Except.ok msgDupB
  else Except.error PyErr.connError

/-- The row written for `msgDupA` (the one surviving record). -/
def rowDup : EmailRow :=
  mkRow (some "m") (DecodedMsg.mk "d one" (some "a@x.com") none (some "2024-04-01") "first copy")

/-- The environment of the reconnection scenario: attempt-indexed fetch
results.  Token `b"1"` suffers a transient `ConnectionError` — its first
attempt fails, every retry succeeds — and token `b"2"` always succeeds.
The script performs exactly one attempt per reference, attempt `0`. -/
def fetchFlaky : List Nat → Nat → Except PyErr PyMessage := fun r attempt =>
  if r = [49] then
    (if attempt = 0 then Except.error PyErr.connError else Except.ok msgA)
  else if r = [50] then Except.ok msgB
  else Except.error PyErr.connError

/-- A mailbox where `b"1"` succeeds and `b"2"` fails with a
`ConnectionError` (for the committed-progress-survives-abort witness). -/
def fetchSecondFails : List Nat → Except PyErr PyMessage := fun r =>
  if r = [49] then Except.ok msgA else Except.error PyErr.connError

/-- Decidable equality for run results (used to evaluate the theorems on
concrete mailboxes). -/
instance {α β : Type} [DecidableEq α] [DecidableEq β] : DecidableEq (Except α β)
  | Except.error a, Except.error b =>
    if h : a = b then isTrue (by rw [h]) else isFalse (by intro hc; cases hc; exact h rfl)
  | Except.error _, Except.ok _ => isFalse (by intro hc; cases hc)
  | Except.ok _, Except.error _ => isFalse (by intro hc; cases hc)
  | Except.ok a, Except.ok b =>
    if h : a = b then isTrue (by rw [h]) else isFalse (by intro hc; cases hc; exact h rfl)

theorem pyOfOpt_ne_vbytes (o : Option String) (b : List Nat) :
    (pyOfOpt o == PyVal.vbytes b) = false := by
  cases o <;> rfl

theorem pyOfOpt_eq_vnone (o : Option String) :
    (pyOfOpt o == PyVal.vnone) = (o == none) := by
  cases o <;> rfl

theorem anyMapEq {A B : Type} (l : List A) (f : A → B) (p : B → Bool) :
    (l.map f).any p = l.any (fun a => p (f a)) := by
  induction l with
  | nil => rfl
  | cons a l ih => simp [List.any_cons, ih]

theorem pending_eq (store : List EmailRow) (ids : List (List Nat)) :
    pendingIds (archiveCache store) ids = ids := by
  unfold pendingIds
  rw [List.filter_eq_self]
  intro mid _
  have hfalse : (archiveCache store).any (fun v => v == PyVal.vbytes mid) = false := by
    rw [List.any_eq_false]
    intro v hv
    unfold archiveCache at hv
    obtain ⟨r, _, rfl⟩ := List.mem_map.mp hv
    simp [pyOfOpt_ne_vbytes]
  rw [hfalse]
  rfl

theorem runBatchAux_nil (f : List Nat → Except PyErr PyMessage) (c : List PyVal)
    (store : List EmailRow) (p : Nat) :
    runBatchAux f c [] store p = Except.ok (store, p) := rfl

theorem runBatchAux_cons (f : List Nat → Except PyErr PyMessage) (c : List PyVal)
    (ref : List Nat) (rest : List (List Nat)) (store : List EmailRow) (p : Nat) :
    runBatchAux f c (ref :: rest) store p =
      match f ref with
      | Except.error _ => Except.error store
      | Except.ok m =>
        if c.any (fun v => v == pyOfOpt m.message_id) then
          runBatchAux f c rest store p
        else
          match decodeFields m with
          | Except.error _ => Except.error store
          | Except.ok d =>
            runBatchAux f c rest (insertIfAbsent store (mkRow m.message_id d)).1 (p + 1) := rfl

theorem insertIfAbsent_none (store : List EmailRow) (r : EmailRow) (h : r.message_id = none) :
    insertIfAbsent store r = (store ++ [r], true) := by
  unfold insertIfAbsent
  rw [h]

theorem insertIfAbsent_some (store : List EmailRow) (r : EmailRow) (s : String)
    (h : r.message_id = some s) :
    insertIfAbsent store r =
      (if store.any (fun q => q.message_id == some s) then (store, false)
       else (store ++ [r], true)) := by
  unfold insertIfAbsent
  rw [h]

theorem insert_grows (store : List EmailRow) (r : EmailRow) :
    ∃ t, (insertIfAbsent store r).1 = store ++ t := by
  unfold insertIfAbsent
  cases r.message_id with
  | none => exact ⟨[r], rfl⟩
  | some s =>
    by_cases h : store.any (fun q => q.message_id == some s) = true
    · refine ⟨[], ?_⟩
      simp [h]
    · refine ⟨[r], ?_⟩
      simp [h]

theorem runAux_ok_grows (f : List Nat → Except PyErr PyMessage) (c : List PyVal) :
    ∀ (l : List (List Nat)) (store : List EmailRow) (p : Nat)
    (s' : List EmailRow) (n' : Nat), runBatchAux f c l store p = Except.ok (s', n') →
    ∃ t, s' = store ++ t := by
  intro l
  induction l with
  | nil =>
    intro store p s' n' h
    rw [runBatchAux_nil] at h
    cases h
    exact ⟨[], by simp⟩
  | cons ref rest ih =>
    intro store p s' n' h
    rw [runBatchAux_cons] at h
    cases hf : f ref with
    | error e => rw [hf] at h; simp at h
    | ok m =>
      rw [hf] at h
      simp only [] at h
      by_cases hc : c.any (fun v => v == pyOfOpt m.message_id) = true
      · rw [if_pos hc] at h
        exact ih _ _ _ _ h
      · rw [if_neg (by simp [hc])] at h
        cases hd : decodeFields m with
        | error e => rw [hd] at h; simp at h
        | ok d =>
          rw [hd] at h
          obtain ⟨t1, ht1⟩ := insert_grows store (mkRow m.message_id d)
          obtain ⟨t2, ht2⟩ := ih _ _ _ _ h
          exact ⟨t1 ++ t2, by rw [ht2, ht1, List.append_assoc]⟩

theorem runAux_err_grows (f : List Nat → Except PyErr PyMessage) (c : List PyVal) :
    ∀ (l : List (List Nat)) (store : List EmailRow) (p : Nat)
    (s' : List EmailRow), runBatchAux f c l store p = Except.error s' →
    ∃ t, s' = store ++ t := by
  intro l
  induction l with
  | nil =>
    intro store p s' h
    rw [runBatchAux_nil] at h
    simp at h
  | cons ref rest ih =>
    intro store p s' h
    rw [runBatchAux_cons] at h
    cases hf : f ref with
    | error e =>
      rw [hf] at h
      cases h
      exact ⟨[], by simp⟩
    | ok m =>
      rw [hf] at h
      simp only [] at h
      by_cases hc : c.any (fun v => v == pyOfOpt m.message_id) = true
      · rw [if_pos hc] at h
        exact ih _ _ _ h
      · rw [if_neg (by simp [hc])] at h
        cases hd : decodeFields m with
        | error e =>
          rw [hd] at h
          cases h
          exact ⟨[], by simp⟩
        | ok d =>
          rw [hd] at h
          obtain ⟨t1, ht1⟩ := insert_grows store (mkRow m.message_id d)
          obtain ⟨t2, ht2⟩ := ih _ _ _ h
          exact ⟨t1 ++ t2, by rw [ht2, ht1, List.append_assoc]⟩

theorem cache_any_append (s t : List EmailRow) (v : PyVal)
    (h : (archiveCache s).any (fun w => w == v) = true) :
    (archiveCache (s ++ t)).any (fun w => w == v) = true := by
  unfold archiveCache at *
  rw [List.map_append, List.any_append, h]
  rfl

theorem mem_store_cache_any (s : List EmailRow) (r : EmailRow) (hr : r ∈ s) :
    (archiveCache s).any (fun w => w == pyOfOpt r.message_id) = true := by
  rw [List.any_eq_true]
  exact ⟨pyOfOpt r.message_id, List.mem_map.mpr ⟨r, hr, rfl⟩, by simp⟩

theorem insert_covers (store : List EmailRow) (r : EmailRow) :
    (archiveCache (insertIfAbsent store r).1).any (fun v => v == pyOfOpt r.message_id) = true := by
  cases hmi : r.message_id with
  | none =>
    rw [insertIfAbsent_none store r hmi]
    have hmem : r ∈ store ++ [r] := by simp
    have h2 := mem_store_cache_any _ r hmem
    rw [hmi] at h2
    exact h2
  | some s =>
    rw [insertIfAbsent_some store r s hmi]
    by_cases hdup : store.any (fun q => q.message_id == some s) = true
    · rw [if_pos hdup]
      obtain ⟨q, hq, hqe⟩ := List.any_eq_true.mp hdup
      have hqid : q.message_id = some s := by simpa using hqe
      have h2 := mem_store_cache_any store q hq
      rw [hqid] at h2
      exact h2
    · rw [if_neg hdup]
      have hmem : r ∈ store ++ [r] := by simp
      have h2 := mem_store_cache_any _ r hmem
      rw [hmi] at h2
      exact h2

theorem runAux_ok_covered (f : List Nat → Except PyErr PyMessage) (c : List PyVal) :
    ∀ (l : List (List Nat)) (store : List EmailRow) (p : Nat)
    (s' : List EmailRow) (n' : Nat), runBatchAux f c l store p = Except.ok (s', n') →
    ∀ ref ∈ l, ∃ m, f ref = Except.ok m ∧
      (c.any (fun v => v == pyOfOpt m.message_id) = true ∨
       (archiveCache s').any (fun v => v == pyOfOpt m.message_id) = true) := by
  intro l
  induction l with
  | nil => intro store p s' n' h ref href; cases href
  | cons ref0 rest ih =>
    intro store p s' n' h ref href
    rw [runBatchAux_cons] at h
    cases hf : f ref0 with
    | error e => rw [hf] at h; simp at h
    | ok m =>
      rw [hf] at h
      simp only [] at h
      by_cases hc : c.any (fun v => v == pyOfOpt m.message_id) = true
      · rw [if_pos hc] at h
        rcases List.mem_cons.mp href with rfl | hmem
        · exact ⟨m, hf, Or.inl hc⟩
        · exact ih _ _ _ _ h ref hmem
      · rw [if_neg (by simp [hc])] at h
        cases hd : decodeFields m with
        | error e => rw [hd] at h; simp at h
        | ok d =>
          rw [hd] at h
          rcases List.mem_cons.mp href with rfl | hmem
          · refine ⟨m, hf, Or.inr ?_⟩
            obtain ⟨t2, ht2⟩ := runAux_ok_grows f c rest _ _ _ _ h
            have hmid := insert_covers store (mkRow m.message_id d)
            rw [ht2]
            exact cache_any_append _ _ _ hmid
          · exact ih _ _ _ _ h ref hmem

theorem runAux_all_skip (f : List Nat → Except PyErr PyMessage) (c : List PyVal) :
    ∀ (l : List (List Nat)) (store : List EmailRow) (p : Nat),
    (∀ ref ∈ l, ∃ m, f ref = Except.ok m ∧
      c.any (fun v => v == pyOfOpt m.message_id) = true) →
    runBatchAux f c l store p = Except.ok (store, p) := by
  intro l
  induction l with
  | nil => intro store p _; rfl
  | cons ref rest ih =>
    intro store p h
    obtain ⟨m, hf, hc⟩ := h ref (List.mem_cons_self _ _)
    rw [runBatchAux_cons, hf]
    simp only []
    rw [if_pos hc]
    exact ih store p (fun r hr => h r (List.mem_cons_of_mem _ hr))

theorem insert_nodup (store : List EmailRow) (r : EmailRow) (h : NoDupIds store) :
    NoDupIds (insertIfAbsent store r).1 := by
  cases hmi : r.message_id with
  | none =>
    rw [insertIfAbsent_none store r hmi]
    unfold NoDupIds at *
    rw [List.pairwise_append]
    refine ⟨h, List.pairwise_singleton _ _, ?_⟩
    intro a ha b hb
    rcases List.mem_singleton.mp hb with rfl
    cases hai : a.message_id with
    | none => exact Or.inl rfl
    | some s =>
      refine Or.inr ?_
      rw [hmi]
      simp
  | some s =>
    rw [insertIfAbsent_some store r s hmi]
    by_cases hdup : store.any (fun q => q.message_id == some s) = true
    · rw [if_pos hdup]
      exact h
    · rw [if_neg hdup]
      unfold NoDupIds at *
      rw [List.pairwise_append]
      refine ⟨h, List.pairwise_singleton _ _, ?_⟩
      intro a ha b hb
      rcases List.mem_singleton.mp hb with rfl
      cases hai : a.message_id with
      | none => exact Or.inl rfl
      | some t =>
        refine Or.inr ?_
        rw [hmi]
        intro hq
        injection hq with ht
        subst ht
        apply hdup
        rw [List.any_eq_true]
        exact ⟨a, ha, by rw [hai]; simp⟩

theorem runAux_nodup (f : List Nat → Except PyErr PyMessage) (c : List PyVal) :
    ∀ (l : List (List Nat)) (store : List EmailRow) (p : Nat), NoDupIds store →
    NoDupIds (resultStore (runBatchAux f c l store p)) := by
  intro l
  induction l with
  | nil => intro store p h; exact h
  | cons ref rest ih =>
    intro store p h
    rw [runBatchAux_cons]
    cases hf : f ref with
    | error e => exact h
    | ok m =>
      simp only []
      by_cases hc : c.any (fun v => v == pyOfOpt m.message_id) = true
      · rw [if_pos hc]
        exact ih _ _ h
      · rw [if_neg (by simp [hc])]
        cases hd : decodeFields m with
        | error e => exact h
        | ok d => exact ih _ _ (insert_nodup store _ h)

theorem rowPred_alice (lim off : Nat) (r : EmailRow) :
    rowPred (aliceArgs lim off) r = (likeSub "alice" r.sender && geFrom "2024-01-01" r.date) := by
  unfold rowPred aliceArgs
  rw [show activeFilter (some "alice") = some "alice" from rfl,
      show activeFilter (some "2024-01-01") = some "2024-01-01" from rfl,
      show activeFilter none = none from rfl]
  simp

theorem rowPred_nofilter (lim off : Nat) (r : EmailRow) :
    rowPred (noFilterArgs lim off) r = true := rfl

theorem mem_query_pred (db : List EmailRow) (a : QueryArgs) (r : EmailRow)
    (hr : r ∈ query_emails db a) : rowPred a r = true := by
  unfold query_emails at hr
  have h1 := List.mem_of_mem_take hr
  have h2 := List.mem_of_mem_drop h1
  have h3 := (List.perm_insertionSort dateDesc (db.filter (rowPred a))).mem_iff.mp h2
  exact List.of_mem_filter h3

theorem query_sorted (db : List EmailRow) (a : QueryArgs) :
    List.Pairwise dateDesc (query_emails db a) := by
  unfold query_emails
  have hs : List.Pairwise dateDesc ((db.filter (rowPred a)).insertionSort dateDesc) :=
    List.sorted_insertionSort dateDesc _
  exact hs.sublist ((List.take_sublist _ _).trans (List.drop_sublist _ _))

/-- C9 (amended): for every database state, querying with `sender="alice"`
and `date_from="2024-01-01"` returns exactly the limit/offset window of the
date-descending sort of the records whose sender contains `"alice"`
case-insensitively (SQLite `LIKE` folds ASCII case) and whose date string
is bytewise at least `"2024-01-01"`; every returned record satisfies both
predicates, the result is ordered by date descending, and absent filters
impose no constraint. -/
theorem query_alice_datefrom_spec (db : List EmailRow) (lim off : Nat) :
    query_emails db (aliceArgs lim off) =
      (((db.filter (fun r => likeSub "alice" r.sender && geFrom "2024-01-01" r.date)).insertionSort
        dateDesc).drop off).take lim ∧
    (∀ r ∈ query_emails db (aliceArgs lim off),
      likeSub "alice" r.sender = true ∧ geFrom "2024-01-01" r.date = true) ∧
    List.Pairwise dateDesc (query_emails db (aliceArgs lim off)) ∧
    query_emails db (noFilterArgs lim off) = ((db.insertionSort dateDesc).drop off).take lim := by
  refine ⟨?_, ?_, query_sorted db _, ?_⟩
  · unfold query_emails
    rw [List.filter_congr (fun r _ => rowPred_alice lim off r)]
    rfl
  · intro r hr
    have h := mem_query_pred db _ r hr
    rw [rowPred_alice] at h
    exact ⟨(Bool.and_eq_true _ _).mp h |>.1, (Bool.and_eq_true _ _).mp h |>.2⟩
  · unfold query_emails
    rw [List.filter_congr (fun r _ => rowPred_nofilter lim off r), List.filter_true]
    rfl

/-- C9 counterexample: the record with sender `"ALICE@example.com"` is
returned by the `sender="alice"` query although `"alice"` is not a
substring of its sender — SQLite `LIKE` matches ASCII case-insensitively,
refuting the claim's case-sensitive "contains as a substring" reading. -/
theorem query_like_case_insensitive_cex :
    rowALICE ∈ query_emails [rowALICE] (aliceArgs 50 0) ∧
    segIn "alice".data "ALICE@example.com".data = false := by
  constructor
  · rw [show query_emails [rowALICE] (aliceArgs 50 0) = [rowALICE] from rfl]
    exact List.mem_singleton_self _
  · rfl

theorem isHostChar_ne_slash (c : Char) (h : isHostChar c = true) : ¬ c = '/' := by
  intro hq
  rw [hq] at h
  exact absurd h (by decide)

theorem takeHost_cons (a : Char) (as : List Char) :
    takeHost (a :: as) =
      if isHostChar a then (a :: (takeHost as).1, (takeHost as).2) else ([], a :: as) := rfl

theorem takeHost_chars : ∀ l : List Char, ∀ c ∈ (takeHost l).1, isHostChar c = true := by
  intro l
  induction l with
  | nil => intro c hc; simp [takeHost] at hc
  | cons a as ih =>
    intro c hc
    by_cases ha : isHostChar a = true
    · rw [takeHost_cons, if_pos ha] at hc
      rcases List.mem_cons.mp hc with rfl | hmem
      · exact ha
      · exact ih c hmem
    · rw [takeHost_cons, if_neg ha] at hc
      simp at hc

theorem splitDD_cons2 (a b : Char) (bs : List Char) :
    splitDD (a :: b :: bs) =
      (if a = '/' ∧ b = '/' then [] :: splitDD bs
       else
        match splitDD (b :: bs) with
        | s :: ss => (a :: s) :: ss
        | [] => [[a]]) := rfl

theorem splitS_cons (a : Char) (as : List Char) :
    splitS (a :: as) =
      (if a = '/' then [] :: splitS as
       else
        match splitS as with
        | s :: ss => (a :: s) :: ss
        | [] => [[a]]) := rfl

theorem splitDD_no_slash : ∀ l : List Char, (∀ c ∈ l, ¬ c = '/') → splitDD l = [l] := by
  intro l
  induction l with
  | nil => intro _; rfl
  | cons a as ih =>
    intro h
    cases as with
    | nil => rfl
    | cons b bs =>
      have ha : ¬ a = '/' := h a (List.mem_cons_self _ _)
      have has : splitDD (b :: bs) = [b :: bs] :=
        ih (fun c hc => h c (List.mem_cons_of_mem _ hc))
      rw [splitDD_cons2, if_neg (fun hq => ha hq.1), has]

theorem splitS_no_slash : ∀ l : List Char, (∀ c ∈ l, ¬ c = '/') → splitS l = [l] := by
  intro l
  induction l with
  | nil => intro _; rfl
  | cons a as ih =>
    intro h
    have ha : ¬ a = '/' := h a (List.mem_cons_self _ _)
    have has : splitS as = [as] := ih (fun c hc => h c (List.mem_cons_of_mem _ hc))
    rw [splitS_cons, if_neg ha, has]

theorem splitDD_scheme (b : Bool) (h : List Char) :
    splitDD (schemeChars b ++ h) =
      (if b then ['h','t','t','p','s',':'] else ['h','t','t','p',':']) :: splitDD h := by
  cases b <;> rfl

theorem hostOfUrl_scheme (b : Bool) (h : List Char) (hh : ∀ c ∈ h, ¬ c = '/') :
    hostOfUrl (schemeChars b ++ h) = h := by
  unfold hostOfUrl
  rw [splitDD_scheme, splitDD_no_slash h hh]
  cases b <;> simp [splitS_no_slash h hh]

theorem findUrlsF_succ_cons (k : Nat) (c : Char) (cs : List Char) :
    findUrlsF (k + 1) (c :: cs) =
      (match afterScheme (c :: cs) with
       | some pr =>
         if (takeHost pr.2).1.isEmpty then findUrlsF k cs
         else (schemeChars pr.1 ++ (takeHost pr.2).1) :: findUrlsF k (takeHost pr.2).2
       | none => findUrlsF k cs) := rfl

theorem findHostsF_succ_cons (k : Nat) (c : Char) (cs : List Char) :
    findHostsF (k + 1) (c :: cs) =
      (match afterScheme (c :: cs) with
       | some pr =>
         if (takeHost pr.2).1.isEmpty then findHostsF k cs
         else (takeHost pr.2).1 :: findHostsF k (takeHost pr.2).2
       | none => findHostsF k cs) := rfl

theorem findUrlsF_hosts : ∀ (n : Nat) (s : List Char),
    (findUrlsF n s).map hostOfUrl = findHostsF n s := by
  intro n
  induction n with
  | zero => intro s; rfl
  | succ k ih =>
    intro s
    cases s with
    | nil => rfl
    | cons c cs =>
      rw [findUrlsF_succ_cons, findHostsF_succ_cons]
      cases hs : afterScheme (c :: cs) with
      | none => exact ih cs
      | some pr =>
        simp only []
        by_cases hempty : (takeHost pr.2).1.isEmpty = true
        · rw [if_pos hempty, if_pos hempty]
          exact ih cs
        · rw [if_neg hempty, if_neg hempty, List.map_cons, ih,
              hostOfUrl_scheme pr.1 (takeHost pr.2).1
                (fun ch hch => isHostChar_ne_slash ch (takeHost_chars pr.2 ch hch))]

theorem findUrls_hosts (s : List Char) : (findUrls s).map hostOfUrl = findHosts s := by
  unfold findUrls findHosts
  exact findUrlsF_hosts _ _

theorem extract_domains_eq_scanned (text : String) :
    extract_domains text = scannedDomains text := by
  unfold extract_domains scannedDomains
  rw [show (findUrls text.data).map (fun u => String.mk (hostOfUrl u)) =
        ((findUrls text.data).map hostOfUrl).map (fun l => String.mk l) from by
      rw [List.map_map]; rfl]
  rw [findUrls_hosts]

/-- C10: the pre-fetch pending filter is extensionally the identity — for
every start-of-run store and every remote reference list, the computed
pending list equals the full remote list, because the bytes sequence
tokens compared against the cache of stored `message_id` strings (and
NULLs) are never members of that cache; consequently the reported pending
count always equals the total remote count. -/
theorem pending_filter_is_identity (store : List EmailRow) (ids : List (List Nat)) :
    pendingIds (archiveCache store) ids = ids ∧
    (pendingIds (archiveCache store) ids).length = ids.length := by
  refine ⟨pending_eq store ids, ?_⟩
  rw [pending_eq]

/-- C3: running the archiver twice in succession against an unchanged
remote mailbox inserts zero additional records during the second run —
the second run returns the first run's store unchanged with a `processed`
count of zero, every fetched message being skipped by the post-decode
`message_id` membership check (or, within the first run, absorbed by the
duplicate-insert no-op). -/
theorem second_run_inserts_zero (b : Nat) (f : List Nat → Except PyErr PyMessage)
    (ids : List (List Nat)) (s0 s1 : List EmailRow) (n : Nat)
    (h : runBatch b f ids s0 = Except.ok (s1, n)) :
    runBatch b f ids s1 = Except.ok (s1, 0) := by
  unfold runBatch at h ⊢
  rw [pending_eq] at h ⊢
  obtain ⟨t, rfl⟩ := runAux_ok_grows f _ _ _ _ _ _ h
  apply runAux_all_skip
  intro ref href
  obtain ⟨m, hf, hor⟩ := runAux_ok_covered f _ _ _ _ _ _ h ref href
  refine ⟨m, hf, ?_⟩
  rcases hor with hl | hr
  · exact cache_any_append _ _ _ hl
  · exact hr

/-- Witness for C3: a first run against a one-message mailbox inserts the
message; the theorem applied to that run shows the second run returns the
same store and processes zero. -/
theorem second_run_inserts_zero_witness :
    runBatch 500 fetch3 [[49]] [rowA] = Except.ok ([rowA], 0) :=
  second_run_inserts_zero 500 fetch3 [[49]] [] [rowA] 1 (by rfl)

/-- C2: the dedup invariant — under the no-duplicate invariant, inserting
a record whose non-null `message_id` already occurs in the store is a
silent no-op (`insertIfAbsent` returns `false` and leaves the store
unchanged), and the store still satisfies the invariant afterwards. -/
theorem insertIfAbsent_dup_noop (store : List EmailRow) (r : EmailRow) (s : String)
    (h : NoDupIds store) (hs : r.message_id = some s)
    (hq : ∃ q ∈ store, q.message_id = some s) :
    insertIfAbsent store r = (store, false) ∧ NoDupIds (insertIfAbsent store r).1 := by
  have hdup : store.any (fun q => q.message_id == some s) = true := by
    rw [List.any_eq_true]
    obtain ⟨q, hqm, hqe⟩ := hq
    exact ⟨q, hqm, by rw [hqe]; simp⟩
  constructor
  · rw [insertIfAbsent_some store r s hs, if_pos hdup]
  · exact insert_nodup store r h

/-- Witness for C2: re-inserting the already-present record `rowDup`
(message id `"m"`) leaves the singleton store unchanged and returns
`false`. -/
theorem insertIfAbsent_dup_noop_witness :
    insertIfAbsent [rowDup] rowDup = ([rowDup], false) ∧
    NoDupIds (insertIfAbsent [rowDup] rowDup).1 :=
  insertIfAbsent_dup_noop [rowDup] rowDup "m"
    (by unfold NoDupIds; exact List.pairwise_singleton _ _)
    rfl
    ⟨rowDup, List.mem_singleton_self _, rfl⟩

/-- C1: the resume property fails in the code.  With batch size 2 and a
remote list of three messages, a run that archived the first two (N = 2 of
M = 3 pending) is followed by a re-invocation that processes the same
leading slice again — it archives nothing (`processed = 0`, store
unchanged) and message `m3` is still absent, because the pending filter
compares bytes tokens against `message_id` strings and so never shrinks
the pending list; repeated re-invocation therefore never reaches the
third message. -/
theorem rerun_never_reaches_unarchived_tail :
    runBatch 2 fetch3 [[49], [50], [51]] [] = Except.ok ([rowA, rowB], 2) ∧
    runBatch 2 fetch3 [[49], [50], [51]] [rowA, rowB] = Except.ok ([rowA, rowB], 0) ∧
    ([rowA, rowB].all fun r => !(r.message_id == some "m3")) = true :=
  ⟨rfl, rfl, rfl⟩

/-- C4: the decoder is not total — a message whose `Subject` header is
absent makes `decode_header(msg.get("Subject"))` raise `TypeError`
(`msg.get` returns `None` and `decode_header` applies a regex search to
it), and the uncaught exception aborts the whole run. -/
theorem decode_missing_subject_raises :
    decodeFields msgNoSubject = Except.error PyErr.typeError ∧
    runBatch 1 fetchNoSubject [[49]] [] = Except.error [] :=
  ⟨rfl, rfl⟩

/-- C5 counterexample: a single transient `ConnectionError` — the first
attempt at token `b"1"` fails while any retry would succeed — aborts the
run with nothing archived; the code contains no reopen-and-retry handler,
refuting the claim that the failed operation is retried once before
continuing. -/
theorem conn_error_not_retried_cex :
    runBatch 500 (fun r => fetchFlaky r 0) [[49], [50]] [] = Except.error [] ∧
    fetchFlaky [49] 0 = Except.error PyErr.connError ∧
    fetchFlaky [49] 1 = Except.ok msgA :=
  ⟨rfl, rfl, rfl⟩

/-- C5 (amended): a `ConnectionError` (or any other escaping exception)
aborts the run at once, with no retry; every record committed before the
failure is still present — the aborted run's store extends the
start-of-run store. -/
theorem conn_error_abort_keeps_commits (b : Nat) (f : List Nat → Except PyErr PyMessage)
    (ids : List (List Nat)) (store s : List EmailRow)
    (h : runBatch b f ids store = Except.error s) : ∃ t, s = store ++ t := by
  unfold runBatch at h
  exact runAux_err_grows f _ _ _ _ _ h

/-- Witness for C5: a run that archives `m1` and then hits a
`ConnectionError` on the second fetch aborts with the committed row
intact. -/
theorem conn_error_abort_keeps_commits_witness :
    ∃ t, [rowA] = ([] : List EmailRow) ++ t :=
  conn_error_abort_keeps_commits 500 fetchSecondFails [[49], [50]] [] [rowA] (by rfl)

/-- C6 counterexample: two references resolving to the same `message_id`
`"m"` within one fresh run — the second reference passes the snapshot
membership check (the in-memory cache is never updated during the run)
and is re-processed, so `processed = 2`; the claimed companion-set
behaviour would have skipped it before insertion, giving `processed = 1`. -/
theorem dup_ref_not_skipped_cex :
    runBatch 500 fetchDup [[49], [50]] [] = Except.ok ([rowDup], 2) ∧
    ¬ runBatch 500 fetchDup [[49], [50]] [] = Except.ok ([rowDup], 1) := by
  constructor
  · rfl
  · intro h
    rw [show runBatch 500 fetchDup [[49], [50]] [] = Except.ok ([rowDup], 2) from rfl] at h
    simp at h

/-- C6 (amended): the run keeps no in-memory companion set; a second
reference resolving to an already-inserted `message_id` is re-processed
past the membership check, but the duplicate is absorbed by the
insert-time no-op, so the store's non-null `message_id` values remain
duplicate-free through every run, whether it completes or aborts. -/
theorem run_preserves_unique_ids (b : Nat) (f : List Nat → Except PyErr PyMessage)
    (ids : List (List Nat)) (store : List EmailRow) (h : NoDupIds store) :
    NoDupIds (resultStore (runBatch b f ids store)) := by
  unfold runBatch
  exact runAux_nodup f _ _ _ _ h

/-- Witness for C6: the duplicate-reference run of the counterexample
scenario still produces a store with unique non-null ids. -/
theorem run_preserves_unique_ids_witness :
    NoDupIds (resultStore (runBatch 500 fetchDup [[49], [50]] [])) :=
  run_preserves_unique_ids 500 fetchDup [[49], [50]] []
    (by unfold NoDupIds; exact List.Pairwise.nil)

/-- C7 counterexample: a fetched message with no `Message-ID` header is
not skipped on a fresh store — a record with NULL `message_id` is
inserted for it (`processed = 1`, store non-empty), refuting the claim
that no record is inserted. -/
theorem null_id_record_inserted_cex :
    runBatch 500 fetchNoId [[49]] [] = Except.ok ([rowNoId], 1) ∧
    rowNoId.message_id = none ∧
    ¬ resultStore (runBatch 500 fetchNoId [[49]] []) = [] := by
  refine ⟨rfl, rfl, ?_⟩
  intro h
  rw [show resultStore (runBatch 500 fetchNoId [[49]] []) = [rowNoId] from rfl] at h
  simp at h

/-- C7 (amended): a message whose decode yields no `Message-ID` is
skipped only when the start-of-run store already contains a record with
NULL `message_id` (Python's `None in archive_cache` is then true);
otherwise a record with NULL `message_id` is inserted.  Neither case
raises or aborts the run. -/
theorem null_id_skip_or_null_insert (b : Nat) (f : List Nat → Except PyErr PyMessage)
    (ref : List Nat) (m : PyMessage) (store : List EmailRow) (d : DecodedMsg)
    (hb : 0 < b) (hf : f ref = Except.ok m) (hid : m.message_id = none)
    (hd : decodeFields m = Except.ok d) :
    runBatch b f [ref] store =
      (if store.any (fun q => q.message_id == (none : Option String)) then Except.ok (store, 0)
       else Except.ok (store ++ [mkRow none d], 1)) := by
  unfold runBatch
  rw [pending_eq]
  have htake : ([ref] : List (List Nat)).take b = [ref] := by
    cases b with
    | zero => omega
    | succ k => simp
  rw [htake, runBatchAux_cons, hf]
  simp only []
  have hcache : (archiveCache store).any (fun v => v == pyOfOpt m.message_id) =
      store.any (fun q => q.message_id == (none : Option String)) := by
    rw [hid]
    unfold archiveCache
    rw [anyMapEq]
    rw [show pyOfOpt none = PyVal.vnone from rfl]
    simp only [pyOfOpt_eq_vnone]
  rw [hcache]
  by_cases hnull : store.any (fun q => q.message_id == (none : Option String)) = true
  · rw [if_pos hnull, if_pos hnull]
    exact runBatchAux_nil f _ store 0
  · rw [if_neg hnull, if_neg hnull, hd]
    simp only []
    rw [hid, insertIfAbsent_none _ _ rfl, runBatchAux_nil]

/-- Witness for C7: with a NULL-id record already present, the same
no-id message is skipped and the store is unchanged. -/
theorem null_id_skip_or_null_insert_witness :
    runBatch 500 fetchNoId [[49]] [rowNoId] =
      (if [rowNoId].any (fun q => q.message_id == (none : Option String))
       then Except.ok ([rowNoId], 0)
       else Except.ok ([rowNoId] ++
         [mkRow none (DecodedMsg.mk "no id" (some "a@x.com") none (some "2024-02-01") "plain")],
         1)) :=
  null_id_skip_or_null_insert 500 fetchNoId [49] msgNoId [rowNoId]
    (DecodedMsg.mk "no id" (some "a@x.com") none (some "2024-02-01") "plain")
    (by decide) rfl rfl rfl

/-- C8 counterexample: on the body `"a http://example.com:80 now"` the
code extracts `{"example.com"}` — the regex host run ends at the colon,
which is neither `/`, whitespace, nor end of string — while the claim's
terminator list allows no match there, so the claimed characterisation
(`claimedDomains`) disagrees with `extract_domains`. -/
theorem extract_domains_terminator_cex :
    extract_domains "a http://example.com:80 now" = some ({"example.com"} : Finset String) ∧
    claimedDomains "a http://example.com:80 now" = none := by
  constructor
  · decide
  · decide

/-- C8 (amended): `extract_domains` returns exactly the deduplicated set
of hosts found by the left-to-right non-overlapping scan — scheme, then a
maximal non-empty run of word/dot/hyphen characters, terminated by any
other character or the end of the text — and the absent value when there
is none; in particular, on the sample body it returns
`{"example.com", "sub.example.org"}`. -/
theorem extract_domains_scan_eq (text : String) :
    extract_domains text = scannedDomains text ∧
    extract_domains "see http://example.com/x and https://sub.example.org" =
      some ({"example.com", "sub.example.org"} : Finset String) :=
  ⟨extract_domains_eq_scanned text, by decide⟩
